import Mathlib

/-!
Verification of the merge-conflict-assistant LSP server core
(`src/parser.rs` and `src/server.rs`) against its specification.

Modelling conventions.

* Document text is a `List Char`.  The source works with Rust `&str` byte
  offsets; every string that matters to the scanner is scanned by the byte
  position of `'\n'` characters, and for the ASCII marker lines the byte
  and character offsets coincide.  The known UTF-8/UTF-16 offset skew of
  the source is outside the claims checked here.

* The scanner in the source finds the four marker kinds with anchored
  multiline regexes (`(?m)^<<<<<<<.*$` and friends), collects the byte
  offsets of all newlines, and converts a match offset to a 0-based line
  index with `binary_search` (both the `Ok` and `Err` results equal the
  number of newlines strictly before the offset, as the offset list is
  strictly sorted).  A match of such a regex is exactly a whole line that
  begins with the 7-character token; the line index of `match.start()` is
  the line the marker is on, and `match.end()` (which is either the offset
  of the terminating newline of that line or the end of the text) maps to
  the same line index.  The embedding therefore represents each regex
  match as the pair (line index, full line text), which carries the same
  information the source extracts from a match: the derived line numbers,
  the text after the 7-character token, and the match length.

* Rust panics (`unwrap`, out-of-bounds `replace_range`, slicing) are
  modelled by `Option`/`none`; `anyhow::Result` by `Except String`.

* The `HashMap<Uri, DocumentState>` document store is modelled as a
  function `Uri → Option DocumentState`; the mutex/threading of the source
  serialises every handler we model, so each handler is a pure function
  from store to store.
-/

namespace MCA

/-- LSP position: 0-based line and character, `lsp_types::Position`. -/
structure Position where
  line : Nat
  character : Nat
deriving DecidableEq, Repr

/-- LSP range, `lsp_types::Range`.  The source field `end` is a Lean
keyword, so it is called `stop` here. -/
structure Range where
  start : Position
  stop : Position
deriving DecidableEq, Repr

/-- `ConflictRegion` of `src/parser.rs`: a region delimited by the marker
lines `start` and `end` (here `stop`), with the optional trailing name. -/
structure ConflictRegion where
  start : Nat
  stop : Nat
  name : Option (List Char)
deriving DecidableEq, Repr

/-- `Conflict` of `src/parser.rs`. -/
structure Conflict where
  ours : ConflictRegion
  theirs : ConflictRegion
  ancestor : Option ConflictRegion
  last_char : Nat
deriving DecidableEq, Repr

/-- `From<(u32, u32, &str)> for ConflictRegion`: an empty name becomes
`none`. -/
def regionFrom (p : Nat × Nat × List Char) : ConflictRegion :=
  { start := p.1, stop := p.2.1, name := if p.2.2 = [] then none else some p.2.2 }

/-- `Conflict::new`: builds a classic (no-ancestor) conflict.  The source
returns `anyhow::Result` but has no error path. -/
def Conflict.new (ours theirs : Nat × Nat × List Char) (last_char : Nat) :
    Except String Conflict :=
  .ok { ours := regionFrom ours, theirs := regionFrom theirs, ancestor := none, last_char }

/-- `Conflict::new_with_ancestor`. -/
def Conflict.new_with_ancestor (ours theirs ancestor : Nat × Nat × List Char)
    (last_char : Nat) : Except String Conflict :=
  .ok { ours := regionFrom ours, theirs := regionFrom theirs,
        ancestor := some (regionFrom ancestor), last_char }

/-- Whether `tok` is an initial segment of `l` (the anchored regex test
`^tok.*$` on a single line). -/
def beginsWith : List Char → List Char → Bool
  | [], _ => true
  | _ :: _, [] => false
  | t :: ts, c :: cs => t == c && beginsWith ts cs

/-- Split text at `'\n'`; `n` newlines yield `n + 1` lines (the source's
lines are the maximal `'\n'`-free segments the multiline regexes run on). -/
def splitLines : List Char → List (List Char)
  | [] => [[]]
  | c :: rest =>
      if c = '\n' then [] :: splitLines rest
      else
        match splitLines rest with
        | [] => [[c]]
        | l :: ls => (c :: l) :: ls

/-- All regex matches for one marker kind, as (line index, line text)
pairs in document order — `OURS_BEGIN_RE.find_iter` and friends combined
with the newline-offset `binary_search` of `line_from_match!`. -/
def markerLines (tok : List Char) (text : List Char) : List (Nat × List Char) :=
  (splitLines text).enum.filter fun p => beginsWith tok p.2

def oursTok : List Char := "<<<<<<<".data
def theirsTok : List Char := "=======".data
def ancestorTok : List Char := "|||||||".data
def endTok : List Char := ">>>>>>>".data

/-- Rust `str::trim` on the text after the 7-character marker token. -/
def trimChars (s : List Char) : List Char :=
  ((s.dropWhile Char.isWhitespace).reverse.dropWhile Char.isWhitespace).reverse

/-- One iteration of the `izip!` loop body of `Parser::parse`: builds the
conflict for the current (ours, theirs, end) triple and the optional
current ancestor match. -/
def mkConflictAt (o t e : Nat × List Char) (anc : Option (Nat × List Char)) : Conflict :=
  match anc with
  | some a =>
      { ours := regionFrom (o.1, a.1, trimChars (o.2.drop 7)),
        theirs := regionFrom (t.1, e.1, trimChars (e.2.drop 7)),
        ancestor := some (regionFrom (a.1, t.1, trimChars (a.2.drop 7))),
        last_char := e.2.length }
  | none =>
      { ours := regionFrom (o.1, t.1, trimChars (o.2.drop 7)),
        theirs := regionFrom (t.1, e.1, trimChars (e.2.drop 7)),
        ancestor := none,
        last_char := e.2.length }

/-- The `izip!` loop of `Parser::parse`: consumes the ours/theirs/end
streams in lockstep (stopping at the shortest) while the ancestor stream —
padded with `None` by `ancestor_matches.map(Some).chain(iter::repeat(None))`
— supplies its next element to each iteration. -/
def buildConflicts :
    List (Nat × List Char) → List (Nat × List Char) →
    List (Nat × List Char) → List (Nat × List Char) → List Conflict
  | o :: os, ancs, t :: ts, e :: es =>
      mkConflictAt o t e ancs.head? :: buildConflicts os ancs.tail ts es
  | _, _, _, _ => []

/-- The conflict list produced by `Parser::parse` for a text. -/
def parseConflicts (text : List Char) : List Conflict :=
  buildConflicts (markerLines oursTok text) (markerLines ancestorTok text)
    (markerLines theirsTok text) (markerLines endTok text)

/-- The `izip!` loop with the source's `anyhow::Result` plumbing: each
conflict is built by `Conflict::new`/`Conflict::new_with_ancestor`, whose
errors (there are none) would propagate via `?`. -/
def buildConflictsE :
    List (Nat × List Char) → List (Nat × List Char) →
    List (Nat × List Char) → List (Nat × List Char) → Except String (List Conflict)
  | o :: os, ancs, t :: ts, e :: es => do
      let c ← match ancs.head? with
        | some a =>
            Conflict.new_with_ancestor
              (o.1, a.1, trimChars (o.2.drop 7))
              (t.1, e.1, trimChars (e.2.drop 7))
              (a.1, t.1, trimChars (a.2.drop 7))
              e.2.length
        | none =>
            Conflict.new
              (o.1, t.1, trimChars (o.2.drop 7))
              (t.1, e.1, trimChars (e.2.drop 7))
              e.2.length
      let rest ← buildConflictsE os ancs.tail ts es
      .ok (c :: rest)
  | _, _, _, _ => .ok []

/-- `Parser::parse` of `src/parser.rs`.  The `uri` parameter is only used
for logging in the source. -/
def Parser.parse (uri : String) (text : List Char) :
    Except String (Option (List Conflict)) := do
  let conflicts ← buildConflictsE (markerLines oursTok text)
    (markerLines ancestorTok text) (markerLines theirsTok text)
    (markerLines endTok text)
  .ok (some conflicts)

/-! ## Document store and change application (`src/server.rs`) -/

abbrev Uri := String

/-- `DocumentState` of `src/server.rs`. -/
structure DocumentState where
  content : List Char
  version : Int
  conflicts : Option (List Conflict)
deriving DecidableEq, Repr

/-- The `HashMap<Uri, DocumentState>` behind the store mutex, as a map. -/
def Store := Uri → Option DocumentState

/-- Insertion/overwrite of one entry (`HashMap::insert` / in-place
mutation through `get_mut`). -/
def updateStore (store : Store) (uri : Uri) (doc : DocumentState) : Store :=
  fun u => if u = uri then some doc else store u

/-- `lsp_types::TextDocumentContentChangeEvent` (the unused
`range_length` field is omitted). -/
structure TextDocumentContentChangeEvent where
  range : Option Range
  text : List Char
deriving DecidableEq, Repr

/-- Indices of `'\n'` in ascending order — `value.match_indices('\n')`. -/
def nlPositions : List Char → List Nat
  | [] => []
  | c :: rest =>
      if c = '\n' then 0 :: (nlPositions rest).map (· + 1)
      else (nlPositions rest).map (· + 1)

/-- `index_for_position` of `src/server.rs`: offset 0 for line 0,
otherwise one past the `(line-1)`-th newline, plus the raw character
count.  `none` exactly when the requested line has no newline starting
it. -/
def index_for_position (position : Position) (value : List Char) : Option Nat :=
  (if position.line = 0 then some 0
   else ((nlPositions value)[position.line - 1]?).map (· + 1)).map
    (· + position.character)

/-- Rust `String::replace_range(start..end, text)`: panics (`none`) when
the range is reversed or reaches past the end of the string. -/
def replace_range (content : List Char) (s e : Nat) (text : List Char) :
    Option (List Char) :=
  if s ≤ e ∧ e ≤ content.length then some (content.take s ++ text ++ content.drop e)
  else none

/-- `apply_changes` of `src/server.rs`: fold the batch in order; a change
whose `range` is `None` replaces the whole content; a change whose start
or end *line* cannot be resolved is logged and skipped; a resolved but
out-of-bounds offset pair makes `replace_range` panic (`none`), aborting
the batch. -/
def apply_changes (content : List Char)
    (changes : List TextDocumentContentChangeEvent) : Option (List Char) :=
  match changes with
  | [] => some content
  | change :: rest =>
      match change.range with
      | some r =>
          match index_for_position r.start content, index_for_position r.stop content with
          | some s, some e =>
              match replace_range content s e change.text with
              | some updated => apply_changes updated rest
              | none => none
          | _, _ => apply_changes content rest
      | none => apply_changes change.text rest

/-- `ServerState::on_did_change_text_document`, after parameter
extraction: look the document up; version skew is only written to the
debug log, the changes are applied regardless, the stored `version` field
is not touched, and `(uri, version)` is returned so the caller spawns a
reparse worker.  `none` models a panic escaping `apply_changes`. -/
def on_did_change_text_document (store : Store) (uri : Uri) (version : Int)
    (content_changes : List TextDocumentContentChangeEvent) :
    Option (Store × Option (Uri × Int)) :=
  match store uri with
  | some doc_state =>
      match apply_changes doc_state.content content_changes with
      | some updated =>
          some (updateStore store uri { doc_state with content := updated },
                some (uri, version))
      | none => none
  | none => some (store, none)

/-! ## Diagnostics (`src/parser.rs` conversions and `src/server.rs`) -/

/-- `Conflict::start`. -/
def Conflict.startPos (c : Conflict) : Position :=
  { line := c.ours.start, character := 0 }

/-- `Conflict::end` (`end` is a Lean keyword). -/
def Conflict.endPos (c : Conflict) : Position :=
  { line := c.theirs.stop, character := c.last_char }

/-- `range_for_diagnostic_conflict`: the conflict's span, with the end
pushed to character 0 of the line after the closing marker. -/
def range_for_diagnostic_conflict (conflict : Conflict) : Range :=
  { start := conflict.startPos,
    stop := { line := conflict.endPos.line + 1, character := 0 } }

/-- `lsp_types::Diagnostic`, restricted to the fields the server sets. -/
structure Diagnostic where
  range : Range
  message : List Char
  source : Option (List Char)
  severity : Option Nat
deriving DecidableEq, Repr

/-- `DiagnosticSeverity::ERROR`. -/
def severityError : Nat := 1

/-- `From<&Conflict> for lsp_types::Diagnostic`. -/
def Diagnostic.ofConflict (conflict : Conflict) : Diagnostic :=
  { range := range_for_diagnostic_conflict conflict,
    message := "merge conflict".data,
    source := some "merge".data,
    severity := some severityError }

/-- The `textDocument/publishDiagnostics` notification payload built in
`prepare_diagnostics`. -/
structure PublishDiagnosticsNotification where
  uri : Uri
  version : Int
  diagnostics : List Diagnostic
deriving DecidableEq, Repr

/-- `prepare_diagnostics` of `src/server.rs`: a notification exactly when
the stored conflict snapshot is `Some`. -/
def prepare_diagnostics (uri : Uri) (doc_state : DocumentState) :
    Option PublishDiagnosticsNotification :=
  doc_state.conflicts.map fun conflicts =>
    { uri, version := doc_state.version,
      diagnostics := conflicts.map Diagnostic.ofConflict }

/-- `ServerState::on_document_update` (the reparse worker body): skip if
the document is gone or the worker's version is stale; otherwise store
the version, reparse, run the decision table on old vs. new snapshots,
and publish when required. -/
def on_document_update (store : Store) (uri : Uri) (version : Int) :
    Except String (Store × Option PublishDiagnosticsNotification) :=
  match store uri with
  | none => .ok (store, none)
  | some doc0 =>
      if version ≥ doc0.version then
        -- the source first writes `doc_state.version = version`, then
        -- parses `doc_state.content` (unchanged by the version write);
        -- every write-back below therefore carries the new version
        match Parser.parse uri doc0.content with
        | .error e => .error e
        | .ok parsed =>
            let conflicts := parsed.getD []
            match doc0.conflicts with
            | some cs =>
                if cs = [] ∧ conflicts = [] then
                  .ok (updateStore store uri
                         { doc0 with version := version, conflicts := none }, none)
                else if cs ≠ conflicts then
                  .ok (updateStore store uri
                         { doc0 with version := version, conflicts := some conflicts },
                       prepare_diagnostics uri
                         { doc0 with version := version, conflicts := some conflicts })
                else
                  .ok (updateStore store uri { doc0 with version := version }, none)
            | none =>
                if conflicts ≠ [] then
                  .ok (updateStore store uri
                         { doc0 with version := version, conflicts := some conflicts },
                       prepare_diagnostics uri
                         { doc0 with version := version, conflicts := some conflicts })
                else
                  .ok (updateStore store uri { doc0 with version := version }, none)
      else
        .ok (store, none)

/-! ## Code actions (`src/server.rs`) -/

/-- `lsp_types::TextEdit`. -/
structure TextEdit where
  range : Range
  new_text : List Char
deriving DecidableEq, Repr

/-- `lsp_types::CodeAction`, restricted to the fields the server sets;
`edit` is the single `uri → [TextEdit]` entry of the `WorkspaceEdit`. -/
structure CodeAction where
  title : List Char
  kind : Option (List Char)
  is_preferred : Option Bool
  diagnostics : Option (List Diagnostic)
  edit : Option (Uri × List TextEdit)
deriving DecidableEq, Repr

/-- `CodeActionKind::QUICKFIX`. -/
def quickfixKind : List Char := "quickfix".data

/-- Rust slice `&content[s..e]`: panics (`none`) when reversed or out of
bounds. -/
def sliceStr (content : List Char) (s e : Nat) : Option (List Char) :=
  if s ≤ e ∧ e ≤ content.length then some ((content.drop s).take (e - s)) else none

/-- The `for region in kept_regions` loop of `make_code_action`: for each
kept region, slice the content from the line after its opening marker to
its closing marker line; the `.unwrap()` calls and the slice indexing
panic (`none`) on failure. -/
def regionSlices (content : List Char) : List ConflictRegion → Option (List (List Char))
  | [] => some []
  | region :: rest => do
      let s ← index_for_position { line := region.start + 1, character := 0 } content
      let e ← index_for_position { line := region.stop, character := 0 } content
      let piece ← sliceStr content s e
      let others ← regionSlices content rest
      some (piece :: others)

/-- `make_code_action` of `src/server.rs`. -/
def make_code_action (title : List Char) (uri : Uri) (document_state : DocumentState)
    (range : Range) (kept_regions : List ConflictRegion) (diagnostic : Diagnostic) :
    Option CodeAction :=
  match regionSlices document_state.content kept_regions with
  | none => none
  | some pieces =>
      some { title, kind := some quickfixKind, is_preferred := some true,
             diagnostics := some [diagnostic],
             edit := some (uri, [{ range, new_text := pieces.flatten }]) }

/-- `conflict_as_code_actions` of `src/server.rs`: keep-ours, keep-theirs,
keep-both, and keep-ancestor when an ancestor region exists. -/
def conflict_as_code_actions (conflict : Conflict) (uri : Uri)
    (document_state : DocumentState) : Option (List CodeAction) := do
  let diagnostic := Diagnostic.ofConflict conflict
  let range := range_for_diagnostic_conflict conflict
  let keep_ours ← make_code_action ("Keep ".data ++ conflict.ours.name.getD "OURS".data)
    uri document_state range [conflict.ours] diagnostic
  let keep_theirs ← make_code_action ("Keep ".data ++ conflict.theirs.name.getD "THEIRS".data)
    uri document_state range [conflict.theirs] diagnostic
  let keep_both ← make_code_action "Keep both".data
    uri document_state range [conflict.ours, conflict.theirs] diagnostic
  match conflict.ancestor with
  | some ancestor => do
      let keep_anc ← make_code_action ("Keep ".data ++ ancestor.name.getD "ancestor".data)
        uri document_state range [ancestor] diagnostic
      some [keep_ours, keep_theirs, keep_both, keep_anc]
  | none => some [keep_ours, keep_theirs, keep_both]

/-! ## Concrete documents and stores used to instantiate the theorems -/

/-- A content made of newline-free lines, each terminated by `'\n'` —
the line-level view of a document used to state what "the text strictly
between two lines" means. -/
def lineJoin (ls : List (List Char)) : List Char :=
  (ls.map fun l => l ++ ['\n']).flatten

/-- Byte offset of the start of line `k` of `lineJoin ls`. -/
def lineOffset (ls : List (List Char)) (k : Nat) : Nat :=
  ((ls.take k).map fun l => l.length + 1).sum

/-- Scenario A of the specification. -/
def scenarioAText : List Char := "a\n<<<<<<<\nb\n=======\nc\n>>>>>>>\nd\n".data

/-- Scenario A as a list of newline-free lines (`lineJoin scenarioALines
= scenarioAText`). -/
def scenarioALines : List (List Char) :=
  ["a".data, "<<<<<<<".data, "b".data, "=======".data, "c".data, ">>>>>>>".data, "d".data]

/-- The single conflict of Scenario A. -/
def scenarioAConflict : Conflict :=
  { ours := ⟨1, 3, none⟩, theirs := ⟨3, 5, none⟩, ancestor := none, last_char := 7 }

/-- Scenario A's document state after a reparse stored its conflict. -/
def scenarioADoc : DocumentState :=
  { content := scenarioAText, version := 0, conflicts := some [scenarioAConflict] }

/-- A classic conflict followed by a diff3 conflict: the only `|||||||`
marker (line 7) lies inside the *second* conflict. -/
def mixedStyleText : List Char :=
  "<<<<<<<\na\n=======\nb\n>>>>>>>\n<<<<<<<\nc\n|||||||\nd\n=======\ne\n>>>>>>>\n".data

/-- A stray `=======` line (line 1) before a well-formed classic conflict
(lines 3–7). -/
def strayTheirsText : List Char :=
  "x\n=======\ny\n<<<<<<<\na\n=======\nb\n>>>>>>>\n".data

/-- A Markdown/RST-style heading underline `=======` (line 1) before a
well-formed classic conflict (lines 3–7). -/
def headingText : List Char :=
  "Title\n=======\nbody\n<<<<<<<\nours\n=======\ntheirs\n>>>>>>>\n".data

/-- A store holding one document at version 5 with content `"x"`. -/
def storeV5 : Store :=
  fun u => if u = "file:///a" then some { content := "x".data, version := 5, conflicts := none } else none

/-- A store holding Scenario A's text at version 5, not yet parsed. -/
def storeScenAV5 : Store :=
  fun u => if u = "file:///a" then some { content := scenarioAText, version := 5, conflicts := none } else none

/-- A store holding Scenario A's text at version 0, not yet parsed. -/
def storeScenAV0 : Store :=
  fun u => if u = "file:///a" then some { content := scenarioAText, version := 0, conflicts := none } else none

/-- The code actions produced for Scenario A's conflict. -/
def scenarioAActions : List CodeAction :=
  (conflict_as_code_actions scenarioAConflict "file:///a" scenarioADoc).getD []

/-! ## Helper lemmas -/

theorem buildConflictsE_eq (os ancs ts es : List (Nat × List Char)) :
    buildConflictsE os ancs ts es = .ok (buildConflicts os ancs ts es) := by
  induction os generalizing ancs ts es with
  | nil => cases ts <;> cases es <;> rfl
  | cons o os ih =>
      cases ts with
      | nil => rfl
      | cons t ts =>
          cases es with
          | nil => rfl
          | cons e es =>
              cases ancs with
              | nil =>
                  simp only [buildConflictsE, buildConflicts, Conflict.new, mkConflictAt]
                  rw [ih]
                  rfl
              | cons a ancs =>
                  simp only [buildConflictsE, buildConflicts, Conflict.new_with_ancestor,
                    mkConflictAt]
                  rw [ih]
                  rfl

theorem parse_eq_ok (uri : Uri) (text : List Char) :
    Parser.parse uri text = .ok (some (parseConflicts text)) := by
  unfold Parser.parse parseConflicts
  rw [buildConflictsE_eq]
  rfl

theorem head?_eq_get0 {α : Type} (l : List α) : l.head? = l[0]? := by
  cases l <;> simp

theorem tail_get {α : Type} (l : List α) (i : Nat) : l.tail[i]? = l[i + 1]? := by
  cases l <;> simp

theorem buildConflicts_length (os ancs ts es : List (Nat × List Char)) :
    (buildConflicts os ancs ts es).length = min (min os.length ts.length) es.length := by
  induction os generalizing ancs ts es with
  | nil => cases ts <;> cases es <;> simp [buildConflicts]
  | cons o os ih =>
      cases ts with
      | nil => simp [buildConflicts]
      | cons t ts =>
          cases es with
          | nil => simp [buildConflicts]
          | cons e es =>
              simp only [buildConflicts, List.length_cons, ih]
              omega

theorem buildConflicts_get (os ancs ts es : List (Nat × List Char)) (i : Nat) :
    (buildConflicts os ancs ts es)[i]? =
      (os[i]?).bind fun o => (ts[i]?).bind fun t => (es[i]?).map fun e =>
        mkConflictAt o t e ancs[i]? := by
  induction os generalizing ancs ts es i with
  | nil => cases ts <;> cases es <;> simp [buildConflicts]
  | cons o os ih =>
      cases ts with
      | nil =>
          cases h : (o :: os)[i]? <;> simp [buildConflicts, h]
      | cons t ts =>
          cases es with
          | nil =>
              cases h : (o :: os)[i]? <;> cases h2 : (t :: ts)[i]? <;>
                simp [buildConflicts, h, h2]
          | cons e es =>
              cases i with
              | zero => simp [buildConflicts, head?_eq_get0]
              | succ i =>
                  simp only [buildConflicts, List.getElem?_cons_succ, ih, tail_get]

theorem nlPositions_append (a b : List Char) :
    nlPositions (a ++ b) = nlPositions a ++ (nlPositions b).map (· + a.length) := by
  induction a with
  | nil => simp [nlPositions]
  | cons c a ih =>
      by_cases h : c = '\n' <;>
        simp [nlPositions, h, ih, List.map_map, Function.comp_def, Nat.add_assoc]

theorem nlPositions_eq_nil (l : List Char) (h : '\n' ∉ l) : nlPositions l = [] := by
  induction l with
  | nil => rfl
  | cons c l ih =>
      simp only [List.mem_cons, not_or] at h
      simp only [nlPositions]
      rw [if_neg (fun hc => h.1 hc.symm)]
      simp [ih h.2]

theorem nlPositions_lineJoin_cons (l : List Char) (ls : List (List Char))
    (h : '\n' ∉ l) :
    nlPositions (lineJoin (l :: ls)) =
      l.length :: (nlPositions (lineJoin ls)).map (· + (l.length + 1)) := by
  have hsplit : lineJoin (l :: ls) = (l ++ ['\n']) ++ lineJoin ls := by
    simp [lineJoin]
  rw [hsplit, nlPositions_append, nlPositions_append, nlPositions_eq_nil l h]
  simp [nlPositions, List.map_map, Function.comp_def, Nat.add_assoc]

theorem lineOffset_cons (l : List Char) (ls : List (List Char)) (k : Nat) :
    lineOffset (l :: ls) (k + 1) = (l.length + 1) + lineOffset ls k := by
  simp [lineOffset, List.take_succ_cons, Nat.add_comm]

theorem lineJoin_length (ls : List (List Char)) :
    (lineJoin ls).length = lineOffset ls ls.length := by
  induction ls with
  | nil => rfl
  | cons l ls ih =>
      have : lineJoin (l :: ls) = (l ++ ['\n']) ++ lineJoin ls := by simp [lineJoin]
      rw [this]
      simp only [List.length_append, List.length_cons, List.length_nil, ih,
        List.length_cons, lineOffset_cons]

theorem lineOffset_succ (ls : List (List Char)) (k : Nat) (l' : List Char)
    (hk : ls[k]? = some l') :
    lineOffset ls (k + 1) = lineOffset ls k + (l'.length + 1) := by
  simp [lineOffset, List.take_succ, hk]

theorem nl_get (ls : List (List Char)) (k : Nat) (l' : List Char)
    (h : ∀ l ∈ ls, '\n' ∉ l) (hk : ls[k]? = some l') :
    (nlPositions (lineJoin ls))[k]? = some (lineOffset ls k + l'.length) := by
  induction ls generalizing k with
  | nil => simp at hk
  | cons l ls ih =>
      rw [nlPositions_lineJoin_cons l ls (h l (List.mem_cons_self l ls))]
      cases k with
      | zero =>
          simp only [List.getElem?_cons_zero, Option.some.injEq] at hk
          subst hk
          simp [lineOffset]
      | succ k =>
          simp only [List.getElem?_cons_succ] at hk
          have hrec := ih k (fun x hx => h x (List.mem_cons_of_mem l hx)) hk
          simp only [List.getElem?_cons_succ, List.getElem?_map, hrec, Option.map_some',
            lineOffset_cons, Option.some.injEq]
          omega

theorem index_lineJoin (ls : List (List Char)) (h : ∀ l ∈ ls, '\n' ∉ l)
    (k : Nat) (hk : k ≤ ls.length) (ch : Nat) :
    index_for_position { line := k, character := ch } (lineJoin ls) =
      some (lineOffset ls k + ch) := by
  cases k with
  | zero => simp [index_for_position, lineOffset]
  | succ k =>
      have hlt : k < ls.length := by omega
      have hget : ls[k]? = some ls[k] := List.getElem?_eq_getElem hlt
      simp only [index_for_position]
      rw [if_neg (Nat.succ_ne_zero k)]
      simp only [Nat.add_sub_cancel]
      rw [nl_get ls k ls[k] h hget]
      simp only [Option.map_some', Option.some.injEq]
      rw [lineOffset_succ ls k ls[k] hget]
      omega

theorem drop_lineJoin (ls : List (List Char)) (k : Nat) :
    (lineJoin ls).drop (lineOffset ls k) = lineJoin (ls.drop k) := by
  induction ls generalizing k with
  | nil => simp [lineJoin, lineOffset]
  | cons l ls ih =>
      cases k with
      | zero => simp [lineOffset]
      | succ k =>
          have hsplit : lineJoin (l :: ls) = (l ++ ['\n']) ++ lineJoin ls := by
            simp [lineJoin]
          rw [lineOffset_cons, hsplit]
          rw [show (l.length + 1) + lineOffset ls k =
                (l ++ ['\n']).length + lineOffset ls k by simp]
          rw [List.drop_append]
          simpa using ih k

theorem take_lineJoin (ls : List (List Char)) (m : Nat) :
    (lineJoin ls).take (lineOffset ls m) = lineJoin (ls.take m) := by
  induction ls generalizing m with
  | nil => simp [lineJoin, lineOffset]
  | cons l ls ih =>
      cases m with
      | zero => simp [lineOffset, lineJoin]
      | succ m =>
          have hsplit : lineJoin (l :: ls) = (l ++ ['\n']) ++ lineJoin ls := by
            simp [lineJoin]
          rw [lineOffset_cons, hsplit]
          rw [show (l.length + 1) + lineOffset ls m =
                (l ++ ['\n']).length + lineOffset ls m by simp]
          rw [List.take_append]
          have hjoin : lineJoin (l :: ls.take m) = (l ++ ['\n']) ++ lineJoin (ls.take m) := by
            simp [lineJoin]
          simp [List.take_succ_cons, hjoin, ih m]

theorem lineOffset_mono (ls : List (List Char)) {k m : Nat} (h : k ≤ m) :
    lineOffset ls k ≤ lineOffset ls m := by
  induction ls generalizing k m with
  | nil => simp [lineOffset]
  | cons l ls ih =>
      cases k with
      | zero => simp [lineOffset]
      | succ k =>
          cases m with
          | zero => omega
          | succ m =>
              rw [lineOffset_cons, lineOffset_cons]
              have := ih (k := k) (m := m) (by omega)
              omega

theorem lineOffset_drop (ls : List (List Char)) {k m : Nat} (h : k ≤ m) :
    lineOffset ls m = lineOffset ls k + lineOffset (ls.drop k) (m - k) := by
  induction ls generalizing k m with
  | nil => simp [lineOffset]
  | cons l ls ih =>
      cases k with
      | zero => simp [lineOffset]
      | succ k =>
          cases m with
          | zero => omega
          | succ m =>
              rw [lineOffset_cons, List.drop_succ_cons]
              rw [ih (k := k) (m := m) (by omega)]
              have : m + 1 - (k + 1) = m - k := by omega
              rw [this, lineOffset_cons]
              omega

theorem sliceStr_lineJoin (ls : List (List Char)) {k m : Nat} (hkm : k ≤ m)
    (hm : m ≤ ls.length) :
    sliceStr (lineJoin ls) (lineOffset ls k) (lineOffset ls m) =
      some (lineJoin ((ls.drop k).take (m - k))) := by
  have h1 : lineOffset ls k ≤ lineOffset ls m := lineOffset_mono ls hkm
  have h2 : lineOffset ls m ≤ (lineJoin ls).length := by
    rw [lineJoin_length]
    exact lineOffset_mono ls hm
  unfold sliceStr
  rw [if_pos ⟨h1, h2⟩]
  congr 1
  rw [drop_lineJoin]
  have h3 : lineOffset ls m - lineOffset ls k = lineOffset (ls.drop k) (m - k) := by
    rw [lineOffset_drop ls hkm]
    omega
  rw [h3, take_lineJoin]

theorem regionSlices_lineJoin (ls : List (List Char)) (h : ∀ l ∈ ls, '\n' ∉ l)
    (kept : List ConflictRegion)
    (hk : ∀ r ∈ kept, r.start + 1 ≤ r.stop ∧ r.stop ≤ ls.length) :
    regionSlices (lineJoin ls) kept =
      some (kept.map fun r =>
        lineJoin ((ls.drop (r.start + 1)).take (r.stop - (r.start + 1)))) := by
  induction kept with
  | nil => rfl
  | cons r rest ih =>
      obtain ⟨h1, h2⟩ := hk r (List.mem_cons_self r rest)
      simp only [regionSlices]
      rw [index_lineJoin ls h (r.start + 1) (by omega) 0,
        index_lineJoin ls h r.stop (by omega) 0]
      simp only [Option.bind_eq_bind, Option.some_bind, Nat.add_zero]
      rw [sliceStr_lineJoin ls h1 h2]
      simp only [Option.some_bind]
      rw [ih (fun x hx => hk x (List.mem_cons_of_mem r hx))]
      rfl

/-! ## Claim theorems -/

/-- Claim C9 (confirmed): for every uri and text, `Parser::parse` returns
`Ok(Some(conflicts))` — it has no reachable error path (the only `?` is
on `Conflict::new`/`new_with_ancestor`, which always return `Ok`) and the
final expression is literally `Ok(Some(conflicts))`, so the caller's
error branch and its `unwrap_or_else(Vec::new)` fallback in
`on_document_update` are unreachable. -/
theorem c9_parse_total (uri : Uri) (text : List Char) :
    Parser.parse uri text = Except.ok (some (parseConflicts text)) :=
  parse_eq_ok uri text

/-- Claim C2 (code bug, evaluated at the failing input): on a document
whose first conflict is classic and whose second is diff3, the single
`|||||||` marker — which lies between the *second* conflict's ours-open
(line 5) and theirs-open (line 9) — is attached positionally to the
*first* conflict, producing `ours = {0,7}` and an inverted ancestor
region `{7,2}`, while the second conflict gets no ancestor.  The claim
requires the first conflict to have `ancestor = None` and the second to
gain the ancestor. -/
theorem c2_ancestor_misattached :
    parseConflicts mixedStyleText =
      [ { ours := ⟨0, 7, none⟩, theirs := ⟨2, 4, none⟩,
          ancestor := some ⟨7, 2, none⟩, last_char := 7 },
        { ours := ⟨5, 9, none⟩, theirs := ⟨9, 11, none⟩,
          ancestor := none, last_char := 7 } ] ∧
    ((parseConflicts mixedStyleText).map fun c => c.ancestor.isSome) = [true, false] :=
  ⟨by decide, by decide⟩

/-- Claim C6 (code bug, evaluated at the failing input): a stray
`=======` heading underline before a well-formed conflict makes the
scanner pair the heading line as the first theirs-open, emitting a
conflict with `ours.start = 3 > ours.end = 1`, violating the claimed
invariant `ours.start < ours.end <= theirs.start`. -/
theorem c6_inverted_region_emitted :
    parseConflicts headingText =
      [ { ours := ⟨3, 1, none⟩, theirs := ⟨1, 7, none⟩,
          ancestor := none, last_char := 7 } ] ∧
    ((parseConflicts headingText).map fun c => decide (c.ours.start < c.ours.stop)) =
      [false] :=
  ⟨by decide, by decide⟩

/-- Claim C3 (code bug, evaluated at the failing input): an edit whose
*line* exists but whose *character* lies past the end of the content
resolves to an in-bounds `Some` index pair that is out of range for
`String::replace_range`, which panics — the batch is aborted, not
degraded to a no-op.  (Second conjunct: the case the code does handle —
a line past the last line — is skipped and the following edit in the
batch still applies.) -/
theorem c3_apply_changes_panics :
    apply_changes "ab".data
      [{ range := some ⟨⟨0, 5⟩, ⟨0, 6⟩⟩, text := "X".data }] = none ∧
    apply_changes "ab".data
      [{ range := some ⟨⟨5, 0⟩, ⟨5, 0⟩⟩, text := "Z".data },
       { range := some ⟨⟨0, 0⟩, ⟨0, 1⟩⟩, text := "X".data }] = some "Xb".data :=
  ⟨by decide, by decide⟩

/-- Claim C5 counterexample: a malformed (stray) `=======` marker before
a well-formed conflict is *not* skipped: it is absorbed into the
positional pairing, so the well-formed conflict at lines 3–7 is not in
the output — the scanner instead emits a garbled conflict pairing the
stray marker line 1 with the ours-open at line 3. -/
theorem c5_stray_marker_not_skipped :
    parseConflicts strayTheirsText =
      [ { ours := ⟨3, 1, none⟩, theirs := ⟨1, 7, none⟩,
          ancestor := none, last_char := 7 } ] ∧
    parseConflicts strayTheirsText ≠
      [ { ours := ⟨3, 5, none⟩, theirs := ⟨5, 7, none⟩,
          ancestor := none, last_char := 7 } ] :=
  ⟨by decide, by decide⟩

/-- Claim C5 (amended): the scan never fails — it always returns
`Ok(Some(..))`; the output has exactly `min(#ours, #theirs, #end)`
conflicts, the `i`-th built from the `i`-th marker of each stream (and
the `i`-th ancestor marker when one exists), so trailing markers beyond
the minimum — e.g. an ours-open with no following end marker — are
dropped silently and the conflicts collected from the earlier markers
are unchanged; a malformed marker *earlier* in the document, however,
shifts the positional pairing instead of being skipped. -/
theorem c5_amended_truncation (uri : Uri) (text : List Char) :
    Parser.parse uri text = Except.ok (some (parseConflicts text)) ∧
    (parseConflicts text).length =
      min (min (markerLines oursTok text).length (markerLines theirsTok text).length)
        (markerLines endTok text).length ∧
    ∀ i : Nat, (parseConflicts text)[i]? =
      ((markerLines oursTok text)[i]?).bind fun o =>
        ((markerLines theirsTok text)[i]?).bind fun t =>
          ((markerLines endTok text)[i]?).map fun e =>
            mkConflictAt o t e (markerLines ancestorTok text)[i]? :=
  ⟨parse_eq_ok uri text, buildConflicts_length _ _ _ _, fun i => buildConflicts_get _ _ _ _ i⟩

/-- Claim C1 counterexample: a change event with version 3 against a
stored version 5 is *not* ignored — the whole-document replacement is
applied and the stored content becomes `"y"`. -/
theorem c1_stale_change_applied :
    ((on_did_change_text_document storeV5 "file:///a" 3
        [{ range := none, text := "y".data }]).map
      fun r => (r.1 "file:///a").map DocumentState.content) = some (some "y".data) ∧
    (3 : Int) < 5 ∧ "y".data ≠ "x".data :=
  ⟨by decide, by decide, by decide⟩

/-- Claim C1 (amended): when a change event's version is strictly below
the stored version, the handler only logs the skew — the edits are still
applied to the stored content, the stored `version` field is left
untouched, and `(uri, version)` is still returned so a reparse worker is
spawned (the stale version is instead rejected later by
`on_document_update`). -/
theorem c1_amended_skew_applies_edits (store : Store) (uri : Uri) (version : Int)
    (changes : List TextDocumentContentChangeEvent) (doc : DocumentState)
    (updated : List Char) (hdoc : store uri = some doc)
    (hskew : version < doc.version)
    (happ : apply_changes doc.content changes = some updated) :
    on_did_change_text_document store uri version changes =
      some (updateStore store uri { doc with content := updated }, some (uri, version)) := by
  simp only [on_did_change_text_document, hdoc, happ]

theorem c1_amended_skew_applies_edits_witness :
    on_did_change_text_document storeV5 "file:///a" 3 [{ range := none, text := "y".data }] =
      some (updateStore storeV5 "file:///a"
              { content := "y".data, version := 5, conflicts := none },
            some ("file:///a", 3)) :=
  c1_amended_skew_applies_edits storeV5 "file:///a" 3 _
    { content := "x".data, version := 5, conflicts := none } "y".data rfl (by decide) rfl

/-- Claim C10 (confirmed): a reparse worker that finds no entry for its
uri, or whose version is strictly below the stored version, returns the
store unchanged (every document's content, version and conflicts intact)
and produces no notification. -/
theorem c10_stale_worker_is_noop (store : Store) (uri : Uri) (version : Int)
    (h : store uri = none ∨ ∃ doc, store uri = some doc ∧ version < doc.version) :
    on_document_update store uri version = Except.ok (store, none) := by
  rcases h with h | ⟨doc, hdoc, hlt⟩
  · simp only [on_document_update, h]
  · simp only [on_document_update, hdoc]
    rw [if_neg (by omega)]

/-- Claim C4 (confirmed): the reparse worker's publish decision matches
the specified table.  With the document present and the version fresh,
and writing `cur` for the freshly parsed conflict list: `None → empty`
publishes nothing and keeps `None`; `None → non-empty` publishes and
stores `Some(cur)`; `Some([]) → empty` publishes nothing and collapses
the stored value to `None`; `Some([]) → non-empty` publishes;
`Some(non-empty) → empty` publishes an *empty* diagnostics list and
stores `Some([])`; `Some(non-empty) → equal` publishes nothing;
`Some(non-empty) → different non-empty` publishes; and every publishing
case stores `Some(cur)`. -/
theorem c4_publish_decision_table (store : Store) (uri : Uri) (version : Int)
    (doc : DocumentState) (hdoc : store uri = some doc)
    (hver : doc.version ≤ version) :
    (doc.conflicts = none → parseConflicts doc.content = [] →
       on_document_update store uri version =
         Except.ok (updateStore store uri { doc with version := version }, none)) ∧
    (doc.conflicts = none → parseConflicts doc.content ≠ [] →
       on_document_update store uri version =
         Except.ok (updateStore store uri
             { doc with
                 version := version,
                 conflicts := some (parseConflicts doc.content) },
           some { uri := uri, version := version,
                  diagnostics := (parseConflicts doc.content).map Diagnostic.ofConflict })) ∧
    (doc.conflicts = some [] → parseConflicts doc.content = [] →
       on_document_update store uri version =
         Except.ok (updateStore store uri
             { doc with version := version, conflicts := none }, none)) ∧
    (doc.conflicts = some [] → parseConflicts doc.content ≠ [] →
       on_document_update store uri version =
         Except.ok (updateStore store uri
             { doc with
                 version := version,
                 conflicts := some (parseConflicts doc.content) },
           some { uri := uri, version := version,
                  diagnostics := (parseConflicts doc.content).map Diagnostic.ofConflict })) ∧
    (∀ cs, doc.conflicts = some cs → cs ≠ [] → parseConflicts doc.content = [] →
       on_document_update store uri version =
         Except.ok (updateStore store uri
             { doc with version := version, conflicts := some [] },
           some { uri := uri, version := version, diagnostics := [] })) ∧
    (∀ cs, doc.conflicts = some cs → cs ≠ [] → parseConflicts doc.content = cs →
       on_document_update store uri version =
         Except.ok (updateStore store uri { doc with version := version }, none)) ∧
    (∀ cs, doc.conflicts = some cs → cs ≠ [] → parseConflicts doc.content ≠ [] →
       parseConflicts doc.content ≠ cs →
       on_document_update store uri version =
         Except.ok (updateStore store uri
             { doc with
                 version := version,
                 conflicts := some (parseConflicts doc.content) },
           some { uri := uri, version := version,
                  diagnostics := (parseConflicts doc.content).map Diagnostic.ofConflict })) := by
  have step : on_document_update store uri version =
      (match Parser.parse uri doc.content with
       | .error e => .error e
       | .ok parsed =>
          let conflicts := parsed.getD []
          match doc.conflicts with
          | some cs =>
              if cs = [] ∧ conflicts = [] then
                Except.ok (updateStore store uri
                    { doc with version := version, conflicts := none }, none)
              else if cs ≠ conflicts then
                Except.ok (updateStore store uri
                    { doc with version := version, conflicts := some conflicts },
                  prepare_diagnostics uri
                    { doc with version := version, conflicts := some conflicts })
              else
                Except.ok (updateStore store uri { doc with version := version }, none)
          | none =>
              if conflicts ≠ [] then
                Except.ok (updateStore store uri
                    { doc with version := version, conflicts := some conflicts },
                  prepare_diagnostics uri
                    { doc with version := version, conflicts := some conflicts })
              else
                Except.ok (updateStore store uri { doc with version := version }, none)) := by
    simp only [on_document_update, hdoc]
    rw [if_pos hver]
  rw [parse_eq_ok] at step
  simp only [Option.getD_some] at step
  refine ⟨?_, ?_, ?_, ?_, ?_, ?_, ?_⟩
  · intro hprev hcur
    rw [step, hprev, hcur]
    simp
  · intro hprev hcur
    rw [step, hprev]
    rw [if_pos hcur]
    simp [prepare_diagnostics]
  · intro hprev hcur
    rw [step, hprev, hcur]
    simp
  · intro hprev hcur
    rw [step, hprev]
    simp [hcur, Ne.symm hcur, prepare_diagnostics]
  · intro cs hprev hcs hcur
    rw [step, hprev, hcur]
    simp [hcs, prepare_diagnostics]
  · intro cs hprev hcs hcur
    rw [step, hprev, hcur]
    simp [hcs]
  · intro cs hprev hcs hcur hne
    rw [step, hprev]
    simp [hcs, hcur, Ne.symm hne, prepare_diagnostics]

theorem c4_publish_decision_table_witness :
    on_document_update storeScenAV0 "file:///a" 1 =
      Except.ok (updateStore storeScenAV0 "file:///a"
          { content := scenarioAText, version := 1,
            conflicts := some (parseConflicts scenarioAText) },
        some { uri := "file:///a", version := 1,
               diagnostics := (parseConflicts scenarioAText).map Diagnostic.ofConflict }) :=
  (c4_publish_decision_table storeScenAV0 "file:///a" 1
      { content := scenarioAText, version := 0, conflicts := none }
      rfl (by decide)).2.1 rfl (by decide)

/-- Claim C7 (confirmed).  Concretely, for Scenario A's document the
keep-ours action's edit replaces the range `(1,0)`–`(6,0)` with `"b\n"`
and the keep-both action's edit replaces the same range with `"b\nc\n"`
(the keep-theirs action, also produced, replaces it with `"c\n"`).  In
general, for a document made of newline-terminated lines, an action's
replacement text is the concatenation, in region order, of the lines
strictly between each kept region's start marker line + 1 and its end
marker line. -/
theorem c7_code_action_edits :
    (parseConflicts scenarioAText = [scenarioAConflict] ∧
      lineJoin scenarioALines = scenarioAText) ∧
    (conflict_as_code_actions scenarioAConflict "file:///a" scenarioADoc =
      some
        [ { title := "Keep OURS".data, kind := some quickfixKind,
            is_preferred := some true,
            diagnostics := some [Diagnostic.ofConflict scenarioAConflict],
            edit := some ("file:///a",
              [{ range := { start := ⟨1, 0⟩, stop := ⟨6, 0⟩ }, new_text := "b\n".data }]) },
          { title := "Keep THEIRS".data, kind := some quickfixKind,
            is_preferred := some true,
            diagnostics := some [Diagnostic.ofConflict scenarioAConflict],
            edit := some ("file:///a",
              [{ range := { start := ⟨1, 0⟩, stop := ⟨6, 0⟩ }, new_text := "c\n".data }]) },
          { title := "Keep both".data, kind := some quickfixKind,
            is_preferred := some true,
            diagnostics := some [Diagnostic.ofConflict scenarioAConflict],
            edit := some ("file:///a",
              [{ range := { start := ⟨1, 0⟩, stop := ⟨6, 0⟩ },
                 new_text := "b\nc\n".data }]) } ]) ∧
    ∀ (ls : List (List Char)) (title : List Char) (uri : Uri) (version : Int)
      (confl : Option (List Conflict)) (range : Range) (kept : List ConflictRegion)
      (diag : Diagnostic),
      (∀ l ∈ ls, '\n' ∉ l) →
      (∀ r ∈ kept, r.start + 1 ≤ r.stop ∧ r.stop ≤ ls.length) →
      make_code_action title uri
          { content := lineJoin ls, version := version, conflicts := confl }
          range kept diag =
        some { title := title, kind := some quickfixKind, is_preferred := some true,
               diagnostics := some [diag],
               edit := some (uri,
                 [{ range := range,
                    new_text := (kept.map fun r =>
                      lineJoin ((ls.drop (r.start + 1)).take
                        (r.stop - (r.start + 1)))).flatten }]) } := by
  refine ⟨⟨by decide, by decide⟩, by decide, ?_⟩
  intro ls title uri version confl range kept diag hnl hreg
  unfold make_code_action
  rw [regionSlices_lineJoin ls hnl kept hreg]

theorem c7_code_action_edits_witness :
    make_code_action "Keep OURS".data "file:///a"
        { content := lineJoin scenarioALines, version := 0, conflicts := none }
        (range_for_diagnostic_conflict scenarioAConflict) [scenarioAConflict.ours]
        (Diagnostic.ofConflict scenarioAConflict) =
      some { title := "Keep OURS".data, kind := some quickfixKind,
             is_preferred := some true,
             diagnostics := some [Diagnostic.ofConflict scenarioAConflict],
             edit := some ("file:///a",
               [{ range := range_for_diagnostic_conflict scenarioAConflict,
                  new_text := ([scenarioAConflict.ours].map fun r =>
                    lineJoin ((scenarioALines.drop (r.start + 1)).take
                      (r.stop - (r.start + 1)))).flatten }]) } :=
  c7_code_action_edits.2.2 scenarioALines "Keep OURS".data "file:///a" 0 none
    (range_for_diagnostic_conflict scenarioAConflict) [scenarioAConflict.ours]
    (Diagnostic.ofConflict scenarioAConflict) (by decide) (by decide)

/-- Claim C8 counterexample: for Scenario A's conflict the server
produces three actions, every one of them marked preferred — "preferred
only when it is the sole action" is false. -/
theorem c8_all_actions_preferred :
    scenarioAActions.length = 3 ∧
    scenarioAActions.map CodeAction.is_preferred = [some true, some true, some true] :=
  ⟨by decide, by decide⟩

/-- Claim C8 (amended): every generated code action is unconditionally
marked preferred (`is_preferred: Some(true)` in `make_code_action`),
regardless of how many actions exist — and at least three always exist;
every action is tagged quick-fix and carries the originating
diagnostic. -/
theorem c8_amended_action_fields (conflict : Conflict) (uri : Uri)
    (ds : DocumentState) (acts : List CodeAction)
    (h : conflict_as_code_actions conflict uri ds = some acts) :
    (∀ a ∈ acts, a.is_preferred = some true ∧ a.kind = some quickfixKind ∧
       a.diagnostics = some [Diagnostic.ofConflict conflict]) ∧
    3 ≤ acts.length := by
  have fields : ∀ title range kept a,
      make_code_action title uri ds range kept (Diagnostic.ofConflict conflict) = some a →
      a.is_preferred = some true ∧ a.kind = some quickfixKind ∧
        a.diagnostics = some [Diagnostic.ofConflict conflict] := by
    intro title range kept a hmk
    unfold make_code_action at hmk
    cases hsl : regionSlices ds.content kept with
    | none => rw [hsl] at hmk; cases hmk
    | some ps =>
        rw [hsl] at hmk
        cases hmk
        exact ⟨rfl, rfl, rfl⟩
  simp only [conflict_as_code_actions, Option.bind_eq_bind, Option.bind_eq_some] at h
  obtain ⟨a1, h1, h⟩ := h
  obtain ⟨a2, h2, h⟩ := h
  obtain ⟨a3, h3, h⟩ := h
  cases hanc : conflict.ancestor with
  | none =>
      rw [hanc] at h
      obtain rfl : [a1, a2, a3] = acts := by simpa using h
      refine ⟨?_, by simp⟩
      intro a ha
      simp only [List.mem_cons, List.not_mem_nil, or_false] at ha
      rcases ha with rfl | rfl | rfl
      · exact fields _ _ _ _ h1
      · exact fields _ _ _ _ h2
      · exact fields _ _ _ _ h3
  | some anc =>
      rw [hanc] at h
      simp only [Option.bind_eq_bind, Option.bind_eq_some] at h
      obtain ⟨a4, h4, h⟩ := h
      obtain rfl : [a1, a2, a3, a4] = acts := by simpa using h
      refine ⟨?_, by simp⟩
      intro a ha
      simp only [List.mem_cons, List.not_mem_nil, or_false] at ha
      rcases ha with rfl | rfl | rfl | rfl
      · exact fields _ _ _ _ h1
      · exact fields _ _ _ _ h2
      · exact fields _ _ _ _ h3
      · exact fields _ _ _ _ h4

theorem c8_amended_action_fields_witness : 3 ≤ scenarioAActions.length :=
  (c8_amended_action_fields scenarioAConflict "file:///a" scenarioADoc
    scenarioAActions (by decide)).2

theorem c10_stale_worker_is_noop_witness :
    on_document_update storeScenAV5 "file:///a" 3 = Except.ok (storeScenAV5, none) :=
  c10_stale_worker_is_noop storeScenAV5 "file:///a" 3
    (Or.inr ⟨{ content := scenarioAText, version := 5, conflicts := none }, rfl, by decide⟩)

end MCA
